import Mathlib

/-!
Verification development for the B3 market-data ingestion pipeline
(`src/ingestor.py` and `src/scripts/read_refined.py`).

The pandas dataframes of the source are shallowly embedded as dynamic
tables (`DynTable`): a list of column names plus rows of `Cell` values.
Timestamps are integers counting milliseconds since the epoch; a
timezone-aware index carries its fixed UTC offset in minutes at the
table level, matching a pandas `DatetimeIndex` whose `tz` is a fixed
offset.  Prices are rationals (the float64 arithmetic of the source is
exact on the values these claims exercise).  Unparseable values are
`Cell.null` (pandas `NaN`/`NaT`/`NA`).
-/

namespace B3Ingest

/-- Cell values of an embedded dataframe.  `ts` is a timezone-naive
timestamp in milliseconds since the epoch (pandas `datetime64[ms]`);
`null` stands for `NaN`/`NaT`/`pd.NA`. -/
inductive Cell
| null
| num (q : ℚ)
| int (n : Int)
| str (s : String)
| ts (ms : Int)
deriving DecidableEq

/-- Wide multi-ticker source table: two-level column labels
(`cols`), a time index with an optional fixed UTC offset `tz`
(minutes east of UTC; `none` means timezone-naive), and row-major
data aligned with `cols`.  `index` entries are clock values in
milliseconds as displayed (`none` is `NaT`). -/
structure WideTable where
  tz : Option Int
  index : List (Option Int)
  cols : List (String × String)
  data : List (List Cell)
deriving DecidableEq

/-- Flat single-ticker source table with one-level column labels. -/
structure FlatTable where
  tz : Option Int
  index : List (Option Int)
  cols : List String
  data : List (List Cell)
deriving DecidableEq

/-- The two source shapes accepted by `_to_tidy` (`src/ingestor.py`):
a two-level `pd.MultiIndex` column frame or a flat frame. -/
inductive SourceTable
| wide (w : WideTable)
| flat (t : FlatTable)
deriving DecidableEq

/-- Dynamic dataframe: named columns and row-major cells. -/
structure DynTable where
  cols : List String
  rows : List (List Cell)
deriving DecidableEq

/-- ASCII upper-casing of one character, modeling Python `str.upper`
on the ASCII ticker symbols and field names the pipeline handles. -/
def upChar (c : Char) : Char :=
  if 'a' ≤ c ∧ c ≤ 'z' then Char.ofNat (c.toNat - 32) else c

/-- ASCII lower-casing of one character (Python `str.lower`). -/
def downChar (c : Char) : Char :=
  if 'A' ≤ c ∧ c ≤ 'Z' then Char.ofNat (c.toNat + 32) else c

/-- Python `str.upper` over the characters of a string. -/
def upStr (s : String) : String := ⟨s.data.map upChar⟩

/-- Python `str.lower` over the characters of a string. -/
def downStr (s : String) : String := ⟨s.data.map downChar⟩

/-- Python `str.strip`: remove leading and trailing whitespace. -/
def trimStr (s : String) : String :=
  ⟨((s.data.dropWhile Char.isWhitespace).reverse.dropWhile Char.isWhitespace).reverse⟩

/-- Model of pandas `df.empty`: true when either axis has length 0. -/
def srcEmpty : SourceTable → Bool
| .wide w => w.index.isEmpty || w.cols.isEmpty
| .flat t => t.index.isEmpty || t.cols.isEmpty

/-- Model of pandas `df.empty` on a tidy frame. -/
def dfEmpty (t : DynTable) : Bool := t.rows.isEmpty || t.cols.isEmpty

/-- The early-return branch of `_to_tidy` for `df.empty`: the frame is
returned unchanged.  Two-level column labels are encoded as dotted
strings so both shapes fit `DynTable`; rows are the index-aligned data
rows (a pandas frame has one row per index entry). -/
def passthrough : SourceTable → DynTable
| .wide w => ⟨w.cols.map (fun p => p.1 ++ "." ++ p.2), (w.index.zip w.data).map Prod.snd⟩
| .flat t => ⟨t.cols, (t.index.zip t.data).map Prod.snd⟩

/-- Lines 96-101 of `src/ingestor.py`: the index is parsed and, when
timezone-aware, converted to UTC (`tz_convert("UTC")`); the later
`tz_localize(None)` drops the offset, leaving the UTC instant.  A
naive index is left numerically unchanged (assumed UTC). -/
def tsCellOf (tz : Option Int) : Option Int → Cell
| none => Cell.null
| some v =>
  match tz with
  | none => Cell.ts v
  | some o => Cell.ts (v - o * 60000)

/-- Python `len(tset & lvl) >= len(tset) // 2` for one column level:
the case-insensitive overlap between the requested tickers and the
level's distinct values reaches half the number of distinct requested
tickers. -/
def levelHit (vals : List String) (tickers : List String) : Prop :=
  (tickers.map upStr).toFinset.card / 2 ≤
    ((tickers.map upStr).toFinset ∩ (vals.map upStr).toFinset).card

instance (vals tickers : List String) : Decidable (levelHit vals tickers) := by
  unfold levelHit; infer_instance

/-- Embedding of `_detect_ticker_level` (`src/ingestor.py` lines
71-84): build the upper-cased set of requested tickers and of each
level's values; return 0 when the level-0 overlap reaches half the
ticker-set size, else 1 when the level-1 overlap does, else 0. -/
def _detect_ticker_level (cols : List (String × String)) (tickers : List String) : Nat :=
  if levelHit (cols.map Prod.fst) tickers then 0
  else if levelHit (cols.map Prod.snd) tickers then 1
  else 0

/-- Accumulator pass keeping the first occurrence of each element. -/
def uniqFirstAux {α : Type} [DecidableEq α] : List α → List α → List α
| _, [] => []
| seen, x :: xs =>
  if x ∈ seen then uniqFirstAux seen xs else x :: uniqFirstAux (x :: seen) xs

/-- First occurrences of a list, in order (pandas `unique`). -/
def uniqFirst {α : Type} [DecidableEq α] (l : List α) : List α := uniqFirstAux [] l

/-- Value of the column labelled `key` in one source row
(`Cell.null` when the pair is absent, as `stack` fills missing
combinations with `NaN`). -/
def lookupCell (cols : List (String × String)) (row : List Cell) (key : String × String) : Cell :=
  match (cols.zip row).find? (fun p => decide (p.1 = key)) with
  | some p => p.2
  | none => Cell.null

/-- Lines 103-112 of `src/ingestor.py` after the level swap:
`stack(level=0, future_stack=True)` followed by `reset_index`.  For
each index entry and each distinct level-0 value (a ticker) one row is
emitted, carrying the normalized timestamp, the ticker, and the cells
of that ticker's field columns. -/
def stackRows (tz : Option Int) (index : List (Option Int)) (data : List (List Cell))
    (cols : List (String × String)) : DynTable :=
  ⟨"trade_date" :: "ticker" :: uniqFirst (cols.map Prod.snd),
   (index.zip data).flatMap (fun p =>
     (uniqFirst (cols.map Prod.fst)).map (fun tk =>
       tsCellOf tz p.1 :: Cell.str tk ::
         (uniqFirst (cols.map Prod.snd)).map (fun f => lookupCell cols p.2 (tk, f))))⟩

/-- Swap of a two-level column label (`swaplevel(0, 1)`). -/
def swapPair (p : String × String) : String × String := (p.2, p.1)

/-- The tidy frame before column canonicalization: the wide branch
detects the ticker level, swaps levels when it is 1, and stacks; the
flat branch is `reset_index` plus inserting the constant ticker column
at position 1 (lines 103-118 of `src/ingestor.py`). -/
def midTable : SourceTable → List String → DynTable
| .wide w, tickers =>
  stackRows w.tz w.index w.data
    (if _detect_ticker_level w.cols tickers = 1
     then w.cols.map swapPair else w.cols)
| .flat t, tickers =>
  ⟨"trade_date" :: "ticker" :: t.cols,
   (t.index.zip t.data).map (fun p =>
     tsCellOf t.tz p.1 :: Cell.str (tickers.headD "UNKNOWN") :: p.2)⟩

/-- The rename map `COL_RENAME` of `src/ingestor.py` lines 60-68. -/
def COL_RENAME : List (String × String) :=
  [("open", "open"), ("high", "high"), ("low", "low"), ("close", "close"),
   ("adj close", "adj_close"), ("adj_close", "adj_close"), ("volume", "volume")]

/-- Column-name canonicalization of lines 121-129: strip, lowercase,
then apply the rename map. -/
def colCanon (s : String) : String :=
  match COL_RENAME.lookup (downStr (trimStr s)) with
  | some v => v
  | none => downStr (trimStr s)

/-- The canonical 8-field schema (line 132 of `src/ingestor.py`). -/
def expected : List String :=
  ["trade_date", "ticker", "open", "high", "low", "close", "adj_close", "volume"]

/-- Selection `tidy[expected]` after the canonicalizing rename: the
cell of the first column whose canonical name is `e`, or `Cell.null`
for a column created as `pd.NA` (lines 131-136). -/
def cellFor (cols : List String) (r : List Cell) (e : String) : Cell :=
  match cols.findIdx? (fun c => decide (colCanon c = e)) with
  | some i => r.getD i Cell.null
  | none => Cell.null

/-- Model of `pd.to_numeric(errors="coerce")` on a cell.  Numeric
string literals are not produced by the source frames and are modeled
as unparseable, like any other string. -/
def toNumeric : Cell → Option ℚ
| .num q => some q
| .int n => some (n : ℚ)
| _ => none

/-- Truncation toward zero, the numpy float-to-int64 cast used by
`astype("int64")`. -/
def truncRat (q : ℚ) : Int := if 0 ≤ q then ⌊q⌋ else ⌈q⌉

/-- Model of `pd.to_datetime(errors="coerce")` followed by the
timezone block and `astype("datetime64[ms]")` (lines 140-158).  The
trade_date cells reaching this point are already naive timestamps or
null, so non-timestamp cells coerce to null. -/
def coerceTs : Cell → Cell
| .ts v => Cell.ts v
| _ => Cell.null

/-- Model of `astype(str)` on a cell (line 159).  Ticker cells are
always strings by construction; renderings of other kinds are
schematic. -/
def cellToStr : Cell → String
| .str s => s
| .num q => toString q
| .int n => toString n
| .ts v => toString v
| .null => "nan"

/-- Per-field type coercion of lines 140-166: trade_date to naive
millisecond timestamp, ticker to string, prices to float via
`to_numeric`, volume to int64 with nulls filled by 0. -/
def coerceField (name : String) (c : Cell) : Cell :=
  if name = "trade_date" then coerceTs c
  else if name = "ticker" then Cell.str (cellToStr c)
  else if name = "volume" then
    Cell.int (match toNumeric c with | some q => truncRat q | none => 0)
  else
    match toNumeric c with | some q => Cell.num q | none => Cell.null

/-- One canonical output row built from a mid-table row. -/
def canonRow (cols : List String) (r : List Cell) : List Cell :=
  expected.map (fun e => coerceField e (cellFor cols r e))

/-- Embedding of `_to_tidy` (`src/ingestor.py` lines 87-168): empty
frames are returned unchanged; otherwise the frame is reshaped to the
mid table and every row is canonicalized to the 8-field schema. -/
def _to_tidy (src : SourceTable) (tickers : List String) : DynTable :=
  if srcEmpty src then passthrough src
  else ⟨expected, (midTable src tickers).rows.map (canonRow (midTable src tickers).cols)⟩

/-- All data cells of a source table. -/
def srcCells : SourceTable → List Cell
| .wide w => w.data.flatten
| .flat t => t.data.flatten

/-- Timezone offset of the source's time index. -/
def srcTz : SourceTable → Option Int
| .wide w => w.tz
| .flat t => t.tz

/-- Clock values of the source's time index. -/
def srcIndex : SourceTable → List (Option Int)
| .wide w => w.index
| .flat t => t.index

/-- Canonical `trade_date` type: naive millisecond timestamp, or null
for an unparseable value. -/
def cellIsTsLike : Cell → Bool
| .ts _ => true
| .null => true
| _ => false

/-- Canonical `ticker` type: string. -/
def cellIsStr : Cell → Bool
| .str _ => true
| _ => false

/-- Canonical price type: float64, NaN-nullable. -/
def cellIsNumLike : Cell → Bool
| .num _ => true
| .null => true
| _ => false

/-- Canonical `volume` type: int64, never null. -/
def cellIsInt : Cell → Bool
| .int _ => true
| _ => false

/-- UTC calendar day of a millisecond timestamp, as a day index
(floor division).  `dt.strftime("%Y-%m-%d")` on a naive-UTC
timestamp renders exactly this day, and for 4-digit years the
lexicographic order of the rendered strings is the numeric order of
the day indices. -/
def dayOf (ms : Int) : Int := Int.fdiv ms 86400000

/-- Partition key of a canonical row: the UTC day of its first cell
(`trade_date`), or `none` for a null timestamp (pandas renders `NaT`
as `NaN`, and `groupby` drops null keys). -/
def rowDay (r : List Cell) : Option Int :=
  match r.getD 0 Cell.null with
  | Cell.ts v => some (dayOf v)
  | _ => none

/-- The distinct partition keys of a row list, in ascending order
(`groupby(..., sort=True)` iterates distinct keys sorted). -/
def partitionKeys (rows : List (List Cell)) : List Int :=
  List.insertionSort (· ≤ ·) (uniqFirst (rows.filterMap rowDay))

/-- Lines 377-408 of `src/ingestor.py`: group the tidy rows by UTC
calendar day, ascending, dropping rows whose timestamp is null.  Each
group becomes one partition file `dt=<day>/b3_stocks.parquet`. -/
def partitionGroups (rows : List (List Cell)) : List (Int × List (List Cell)) :=
  (partitionKeys rows).map
    (fun d => (d, rows.filter (fun r => decide (rowDay r = some d))))

/-- The partition files written by one `ingest` run, as (day, row
count) pairs: nothing when the source frame or the tidy frame is
empty (lines 360-367), else one file per non-empty day group. -/
def ingestWrites (src : SourceTable) (tickers : List String) : List (Int × Nat) :=
  if srcEmpty src then []
  else if dfEmpty (_to_tidy src tickers) then []
  else (partitionGroups (_to_tidy src tickers).rows).filterMap
    (fun p => if p.2.isEmpty then none else some (p.1, p.2.length))

/-- A file system: paths to byte lists (`none` means absent). -/
structure FS where
  files : String → Option (List Nat)

/-- Create or overwrite one file. -/
def fsWrite (fs : FS) (p : String) (content : List Nat) : FS :=
  ⟨fun q => if q = p then some content else fs.files q⟩

/-- POSIX atomic rename (`Path.replace`): the target takes the source
file's content, the source disappears. -/
def fsRename (fs : FS) (src dst : String) : FS :=
  ⟨fun q => if q = dst then fs.files src else if q = src then none else fs.files q⟩

/-- The parquet magic marker `PAR1` as bytes. -/
def PAR1 : List Nat := [80, 65, 82, 49]

/-- The temp path `out_path.with_suffix(".parquet.tmp")`: the target
always ends in `.parquet`, so the suffix swap appends `.tmp`. -/
def tmpOf (p : String) : String := p ++ ".tmp"

/-- Embedding of `_write_parquet_atomic` (`src/ingestor.py` lines
230-271) from the temp write on: write the serialized bytes to the
temp path, check the first and last four bytes against `PAR1`, and
only then rename onto the target.  The second component is the
`RuntimeError` message when a check fails (the rename is skipped). -/
def _write_parquet_atomic (fs : FS) (outPath : String) (content : List Nat) :
    FS × Option String :=
  if content.take 4 ≠ PAR1 then (fsWrite fs (tmpOf outPath) content, some "parquet-magic-missing")
  else if content.drop (content.length - 4) ≠ PAR1 then
    (fsWrite fs (tmpOf outPath) content, some "parquet-footer-magic-missing")
  else (fsRename (fsWrite fs (tmpOf outPath) content) (tmpOf outPath) outPath, none)

/-- Outcome of one upload attempt against the remote store: the
content length reported by the `head_object` probe after a successful
transfer, a `botocore` client error with its error code, or any other
exception. -/
inductive S3Attempt
| head (len : Int)
| clientError (code : String)
| exn
deriving DecidableEq

/-- The retry loop of `_upload_s3_checked` (`src/ingestor.py` lines
282-304): a head probe reporting the local size returns successfully;
a 403/AccessDenied client error fails immediately; every other
outcome (including a size mismatch, raised and caught as a generic
exception) sleeps and retries.  Exhausting the attempt budget raises
the fatal upload-failed error naming the destination. -/
def attemptLoop (bucket key : String) (size : Int) (outcomes : Nat → S3Attempt) :
    Nat → Nat → Except String Unit
| _, 0 => Except.error ("upload_failed: s3://" ++ bucket ++ "/" ++ key)
| attempt, Nat.succ fuel =>
  match outcomes attempt with
  | S3Attempt.head n =>
    if n = size then Except.ok ()
    else attemptLoop bucket key size outcomes (attempt + 1) fuel
  | S3Attempt.clientError code =>
    if code = "403" ∨ code = "AccessDenied" then
      Except.error "s3-access-denied: check credentials and bucket policy"
    else attemptLoop bucket key size outcomes (attempt + 1) fuel
  | S3Attempt.exn => attemptLoop bucket key size outcomes (attempt + 1) fuel

/-- Embedding of `_upload_s3_checked`, attempts numbered from 1. -/
def _upload_s3_checked (bucket key : String) (size : Int) (outcomes : Nat → S3Attempt)
    (retries : Nat) : Except String Unit :=
  attemptLoop bucket key size outcomes 1 retries

/-- Python code-point comparison of strings (`td < start` in
`read_refined.py` compares date strings lexicographically). -/
def strLtList : List Char → List Char → Bool
| [], [] => false
| [], _ :: _ => true
| _ :: _, [] => false
| a :: as, b :: bs =>
  if a.toNat < b.toNat then true
  else if b.toNat < a.toNat then false
  else strLtList as bs

/-- Python `<` on strings. -/
def strLt (a b : String) : Bool := strLtList a.data b.data

/-- The alias map of `src/scripts/read_refined.py` lines 12-19. -/
def PARTITION_KEY_ALIASES : List (String × String) :=
  [("dt", "data_pregao"), ("date", "data_pregao"), ("data_pregao", "data_pregao"),
   ("ticker", "acao_negociada"), ("acao", "acao_negociada"),
   ("acao_negociada", "acao_negociada")]

/-- Normalized partition values parsed from a path. -/
structure PartitionInfo where
  data_pregao : Option String
  acao_negociada : Option String
deriving DecidableEq

/-- Split a character list at the first `=`. -/
def splitEqAux : List Char → List Char → Option (String × String)
| _, [] => none
| acc, c :: cs =>
  if c = '=' then some (⟨acc.reverse⟩, ⟨cs⟩) else splitEqAux (c :: acc) cs

/-- Python `part.split("=", 1)` on a path segment (guarded by
`"=" in part`): `none` when the segment has no `=`, else the stripped
key and stripped remainder. -/
def splitEq (part : String) : Option (String × String) :=
  match splitEqAux [] part.data with
  | none => none
  | some kv => some (trimStr kv.1, trimStr kv.2)

/-- Embedding of `parse_partitions_from_path` (`read_refined.py`
lines 22-39): scan the path segments, split each at `=`, normalize
the key through the alias map; a later segment overwrites an earlier
one for the same normalized key. -/
def parse_partitions_from_path (parts : List String) : PartitionInfo :=
  parts.foldl
    (fun acc part =>
      match splitEq part with
      | none => acc
      | some kv =>
        match PARTITION_KEY_ALIASES.lookup (downStr kv.1) with
        | some "data_pregao" => { acc with data_pregao := some kv.2 }
        | some "acao_negociada" => { acc with acao_negociada := some kv.2 }
        | _ => acc)
    ⟨none, none⟩

/-- Python `supplied_set and (value not in supplied_set)`: a
non-empty explicit value set excludes the file when the parsed value
is absent (`None not in set`) or not a member. -/
def valueMiss (supplied : List String) (v : Option String) : Bool :=
  !supplied.isEmpty &&
    !(match v with | some x => supplied.contains x | none => false)

/-- Python `start and td and td < start`. -/
def beforeStart (start td : Option String) : Bool :=
  match start, td with
  | some s, some v => strLt v s
  | _, _ => false

/-- Python `end and td and td > end`. -/
def afterEnd (stop td : Option String) : Bool :=
  match stop, td with
  | some e, some v => strLt e v
  | _, _ => false

/-- The predicate `ok` inside `filter_files` (`read_refined.py` lines
59-71): explicit date/ticker value sets exclude a file whose parsed
value is absent or not in the set; the start/end bounds exclude only
when a date value was parsed.  `none` bounds model absent CLI
arguments. -/
def fileOk (parts : List String) (data_pregaos acoes : List String)
    (start stop : Option String) : Bool :=
  if valueMiss data_pregaos (parse_partitions_from_path parts).data_pregao then false
  else if valueMiss acoes (parse_partitions_from_path parts).acao_negociada then false
  else if beforeStart start (parse_partitions_from_path parts).data_pregao then false
  else if afterEnd stop (parse_partitions_from_path parts).data_pregao then false
  else true

/-- Embedding of `filter_files`, with paths as segment lists. -/
def filter_files (files : List (List String)) (data_pregaos acoes : List String)
    (start stop : Option String) : List (List String) :=
  files.filter (fun p => fileOk p data_pregaos acoes start stop)

/-- Modelled from the spec's words, as the refinement target for the
detection rule (not from the code): compute each level's overlap with
the requested tickers and pick the level with the higher count; a tie
or no match defaults to level 0. -/
def specDetectTickerLevel (cols : List (String × String)) (tickers : List String) : Nat :=
  if ((tickers.map upStr).toFinset ∩ ((cols.map Prod.fst).map upStr).toFinset).card <
      ((tickers.map upStr).toFinset ∩ ((cols.map Prod.snd).map upStr).toFinset).card
  then 1 else 0

/-! ### Helper lemmas -/

theorem inter_toFinset_card_eq_filter_length {l v : List String} :
    (l.toFinset ∩ v.toFinset).card = (l.dedup.filter (fun t => decide (t ∈ v))).length := by
  have hnd : (l.dedup.filter (fun t => decide (t ∈ v))).Nodup := l.nodup_dedup.filter _
  have hset : l.toFinset ∩ v.toFinset = (l.dedup.filter (fun t => decide (t ∈ v))).toFinset := by
    ext a
    simp [List.mem_filter, List.mem_dedup]
  rw [hset, List.card_toFinset, List.dedup_eq_self.mpr hnd]

theorem levelHit_iff_count (vals tickers : List String) :
    levelHit vals tickers ↔
      (tickers.map upStr).toFinset.card / 2 ≤
        ((tickers.map upStr).dedup.filter
          (fun t => decide (t ∈ vals.map upStr))).length := by
  unfold levelHit
  rw [inter_toFinset_card_eq_filter_length]

theorem tmpOf_ne (p : String) : tmpOf p ≠ p := by
  intro h
  have hl := congrArg String.length h
  rw [tmpOf, String.length_append] at hl
  have h4 : (".tmp" : String).length = 4 := rfl
  rw [h4] at hl
  omega

/-! ### C3: ticker-level detection rule -/

/-- Claim C3, counterexample.  The claim says `_detect_ticker_level`
returns the level with the higher case-insensitive overlap with the
requested tickers.  With the single requested ticker `AAA` appearing
only in level 1, the higher-overlap level is 1 (`specDetectTickerLevel`,
formalizing the claim's rule), but the code's half-threshold test
`len(tset & lvl0) >= len(tset) // 2` is vacuously satisfied at level 0
(`1 // 2 = 0`), so the code returns 0. -/
theorem detect_ticker_level_spec_mismatch :
    _detect_ticker_level [("OPEN", "AAA")] ["AAA"] = 0 ∧
    specDetectTickerLevel [("OPEN", "AAA")] ["AAA"] = 1 :=
  ⟨by decide, by decide⟩

/-- Claim C3, amended.  For every two-level column set and requested
tickers, `_detect_ticker_level` returns 0 when the number of distinct
requested tickers present (case-insensitively) in level 0 reaches half
the number of distinct requested tickers; otherwise 1 when level 1's
count reaches that threshold; otherwise 0.  In particular, for a
single requested ticker it always returns 0, whatever the levels
contain. -/
theorem detect_ticker_level_threshold :
    ∀ (cols : List (String × String)) (tickers : List String),
      (_detect_ticker_level cols tickers =
        (if (tickers.map upStr).dedup.length / 2 ≤
              ((tickers.map upStr).dedup.filter
                (fun t => decide (t ∈ (cols.map Prod.fst).map upStr))).length then 0
         else if (tickers.map upStr).dedup.length / 2 ≤
              ((tickers.map upStr).dedup.filter
                (fun t => decide (t ∈ (cols.map Prod.snd).map upStr))).length then 1
         else 0))
      ∧ (∀ t : String, _detect_ticker_level cols [t] = 0) := by
  intro cols tickers
  constructor
  · have h0 := levelHit_iff_count (cols.map Prod.fst) tickers
    have h1 := levelHit_iff_count (cols.map Prod.snd) tickers
    rw [List.card_toFinset] at h0 h1
    unfold _detect_ticker_level
    split_ifs with a b c d e f <;> tauto
  · intro t
    unfold _detect_ticker_level
    rw [if_pos]
    unfold levelHit
    have hcard : (([t] : List String).map upStr).toFinset.card = 1 := by simp
    rw [hcard]
    exact Nat.zero_le _

/-! ### C7: parquet magic-byte validation -/

/-- Claim C7.  For every partition write whose serialized bytes fail
either the head or the footer `PAR1` magic check,
`_write_parquet_atomic` raises `parquet-magic-missing` or
`parquet-footer-magic-missing` and never performs the rename, so the
content at the target path is unchanged. -/
theorem write_parquet_magic_guard :
    ∀ (fs : FS) (p : String) (content : List Nat),
      content.take 4 ≠ PAR1 ∨ content.drop (content.length - 4) ≠ PAR1 →
      ((_write_parquet_atomic fs p content).2 = some "parquet-magic-missing" ∨
        (_write_parquet_atomic fs p content).2 = some "parquet-footer-magic-missing")
      ∧ (_write_parquet_atomic fs p content).1.files p = fs.files p := by
  intro fs p content h
  unfold _write_parquet_atomic
  by_cases h1 : content.take 4 ≠ PAR1
  · rw [if_pos h1]
    refine ⟨Or.inl rfl, ?_⟩
    show (if p = tmpOf p then some content else fs.files p) = fs.files p
    rw [if_neg (fun hp => tmpOf_ne p hp.symm)]
  · by_cases h2 : content.drop (content.length - 4) ≠ PAR1
    · rw [if_neg h1, if_pos h2]
      refine ⟨Or.inr rfl, ?_⟩
      show (if p = tmpOf p then some content else fs.files p) = fs.files p
      rw [if_neg (fun hp => tmpOf_ne p hp.symm)]
    · exact absurd h (by tauto)

/-- Witness for C7: a five-byte file that does not start with `PAR1`
is rejected with `parquet-magic-missing` and the (initially empty)
target path stays absent. -/
theorem write_parquet_magic_guard_witness :
    (([1, 2, 3, 4, 5] : List Nat).take 4 ≠ PAR1 ∨
      ([1, 2, 3, 4, 5] : List Nat).drop (([1, 2, 3, 4, 5] : List Nat).length - 4) ≠ PAR1)
    ∧ (((_write_parquet_atomic ⟨fun _ => none⟩ "dt=2026-01-16/b3_stocks.parquet"
          [1, 2, 3, 4, 5]).2 = some "parquet-magic-missing" ∨
        (_write_parquet_atomic ⟨fun _ => none⟩ "dt=2026-01-16/b3_stocks.parquet"
          [1, 2, 3, 4, 5]).2 = some "parquet-footer-magic-missing")
      ∧ (_write_parquet_atomic ⟨fun _ => none⟩ "dt=2026-01-16/b3_stocks.parquet"
          [1, 2, 3, 4, 5]).1.files "dt=2026-01-16/b3_stocks.parquet" =
          FS.files ⟨fun _ => none⟩ "dt=2026-01-16/b3_stocks.parquet") :=
  ⟨Or.inl (by decide),
   write_parquet_magic_guard ⟨fun _ => none⟩ "dt=2026-01-16/b3_stocks.parquet"
     [1, 2, 3, 4, 5] (Or.inl (by decide))⟩

/-! ### C9: empty-input short-circuit -/

/-- Claim C9.  For an empty source frame (`df.empty`), `_to_tidy`
returns it unchanged, hence an empty tidy frame, and the ingest run
writes no partition files and signals no error (the writes list of
the run is empty). -/
theorem empty_input_short_circuit :
    ∀ (src : SourceTable) (tickers : List String),
      srcEmpty src = true →
      dfEmpty (_to_tidy src tickers) = true ∧ ingestWrites src tickers = [] := by
  intro src tickers h
  refine ⟨?_, by simp [ingestWrites, h]⟩
  rw [_to_tidy, if_pos h]
  cases src with
  | wide w =>
    simp only [srcEmpty, Bool.or_eq_true, List.isEmpty_iff] at h
    rcases h with h | h
    · simp [passthrough, dfEmpty, h]
    · simp [passthrough, dfEmpty, h]
  | flat t =>
    simp only [srcEmpty, Bool.or_eq_true, List.isEmpty_iff] at h
    rcases h with h | h
    · simp [passthrough, dfEmpty, h]
    · simp [passthrough, dfEmpty, h]

/-- Witness for C9: a flat frame with no rows and no columns is empty,
produces an empty tidy frame, and the run writes nothing. -/
theorem empty_input_short_circuit_witness :
    srcEmpty (SourceTable.flat ⟨none, [], [], []⟩) = true ∧
    dfEmpty (_to_tidy (SourceTable.flat ⟨none, [], [], []⟩) ["VALE3.SA"]) = true ∧
    ingestWrites (SourceTable.flat ⟨none, [], [], []⟩) ["VALE3.SA"] = [] :=
  ⟨by decide,
   (empty_input_short_circuit (SourceTable.flat ⟨none, [], [], []⟩) ["VALE3.SA"] (by decide)).1,
   (empty_input_short_circuit (SourceTable.flat ⟨none, [], [], []⟩) ["VALE3.SA"] (by decide)).2⟩

/-! ### C8: upload integrity and bounded retry -/

/-- Claim C8.  With the retry bound of 3 attempts: when every attempt's
head probe reports a content length different from the local size, the
upload fails with the fatal `upload_failed` error naming the
destination bucket and key; and as soon as some attempt within the
bound reports the local size (all earlier attempts mismatching), the
upload returns successfully. -/
theorem upload_retry_exhaustion :
    ∀ (bucket key : String) (size : Int) (outcomes : Nat → S3Attempt),
      ((∀ a, 1 ≤ a → a ≤ 3 → ∃ n, outcomes a = S3Attempt.head n ∧ n ≠ size) →
        _upload_s3_checked bucket key size outcomes 3 =
          Except.error ("upload_failed: s3://" ++ bucket ++ "/" ++ key))
      ∧ (∀ j, 1 ≤ j → j ≤ 3 →
          (∀ a, 1 ≤ a → a < j → ∃ n, outcomes a = S3Attempt.head n ∧ n ≠ size) →
          outcomes j = S3Attempt.head size →
          _upload_s3_checked bucket key size outcomes 3 = Except.ok ()) := by
  intro bucket key size outcomes
  constructor
  · intro h
    obtain ⟨n1, e1, hn1⟩ := h 1 (by omega) (by omega)
    obtain ⟨n2, e2, hn2⟩ := h 2 (by omega) (by omega)
    obtain ⟨n3, e3, hn3⟩ := h 3 (by omega) (by omega)
    simp [_upload_s3_checked, attemptLoop, e1, e2, e3, hn1, hn2, hn3]
  · intro j hj1 hj3 hprev hj
    have hcase : j = 1 ∨ j = 2 ∨ j = 3 := by omega
    rcases hcase with rfl | rfl | rfl
    · simp [_upload_s3_checked, attemptLoop, hj]
    · obtain ⟨n1, e1, hn1⟩ := hprev 1 (by omega) (by omega)
      simp [_upload_s3_checked, attemptLoop, e1, hn1, hj]
    · obtain ⟨n1, e1, hn1⟩ := hprev 1 (by omega) (by omega)
      obtain ⟨n2, e2, hn2⟩ := hprev 2 (by omega) (by omega)
      simp [_upload_s3_checked, attemptLoop, e1, hn1, e2, hn2, hj]

/-- Witness for C8: a store whose head probe always reports 7 bytes
against a 10-byte local file exhausts the 3 attempts and fails naming
the destination, while a store that reports 10 bytes on the second
attempt succeeds. -/
theorem upload_retry_exhaustion_witness :
    (∀ a, 1 ≤ a → a ≤ 3 →
      ∃ n, (fun _ => S3Attempt.head 7) a = S3Attempt.head n ∧ n ≠ (10 : Int))
    ∧ _upload_s3_checked "my-bucket" "raw/dt=2026-01-16/b3_stocks.parquet" 10
        (fun _ => S3Attempt.head 7) 3 =
        Except.error ("upload_failed: s3://" ++ "my-bucket" ++ "/" ++
          "raw/dt=2026-01-16/b3_stocks.parquet")
    ∧ _upload_s3_checked "my-bucket" "k" 10
        (fun a => if a = 2 then S3Attempt.head 10 else S3Attempt.head 7) 3 =
        Except.ok () :=
  ⟨fun _ _ _ => ⟨7, rfl, by decide⟩,
   (upload_retry_exhaustion "my-bucket" "raw/dt=2026-01-16/b3_stocks.parquet" 10
      (fun _ => S3Attempt.head 7)).1 (fun _ _ _ => ⟨7, rfl, by decide⟩),
   (upload_retry_exhaustion "my-bucket" "k" 10
      (fun a => if a = 2 then S3Attempt.head 10 else S3Attempt.head 7)).2
     2 (by omega) (by omega)
     (fun a h1 h2 => ⟨7, by
        have ha : a = 1 := by omega
        subst ha
        rfl, by decide⟩) rfl⟩

/-! ### C10: reader filter without a date key -/

/-- Claim C10, counterexample.  The claim says a file with no parsed
date key is excluded only when an explicit date or ticker value set is
supplied and the corresponding key is absent from its path.  The path
`ticker=AAA/b3.parquet` has its ticker key present, yet with requested
tickers `[BBB]` the file is excluded. -/
theorem reader_filter_counterexample :
    (parse_partitions_from_path ["ticker=AAA", "b3.parquet"]).data_pregao = none ∧
    (parse_partitions_from_path ["ticker=AAA", "b3.parquet"]).acao_negociada = some "AAA" ∧
    fileOk ["ticker=AAA", "b3.parquet"] [] ["BBB"] none none = false := by
  refine ⟨by decide, by decide, by decide⟩

/-- Claim C10, amended.  For every path with no parsed date key, the
start/end range bounds never affect the outcome of `filter_files`'s
predicate; such a file is excluded exactly when an explicit date value
set is supplied (its key being absent), or a ticker value set is
supplied and the path's ticker value is absent or not in the set. -/
theorem reader_filter_no_date_key :
    ∀ (parts datas acoes : List String) (start stop : Option String),
      (parse_partitions_from_path parts).data_pregao = none →
      fileOk parts datas acoes start stop = fileOk parts datas acoes none none
      ∧ (fileOk parts datas acoes start stop = false ↔
          (datas ≠ [] ∨ (acoes ≠ [] ∧
            (∀ v, (parse_partitions_from_path parts).acao_negociada = some v →
              acoes.contains v = false)))) := by
  intro parts datas acoes start stop h
  have hb : beforeStart start none = false := by cases start <;> rfl
  have he : afterEnd stop none = false := by cases stop <;> rfl
  have hm : ∀ s : List String, valueMiss s none = !s.isEmpty := by
    intro s
    simp [valueMiss]
  simp only [fileOk, h, hb, he, hm, beforeStart, afterEnd, Bool.false_eq_true, if_false]
  cases datas with
  | cons d ds => simp
  | nil =>
    simp only [List.isEmpty_nil, Bool.not_true, Bool.false_eq_true, if_false, ne_eq,
      not_true_eq_false, false_or]
    cases hac : (parse_partitions_from_path parts).acao_negociada with
    | none =>
      cases acoes with
      | nil => simp [valueMiss]
      | cons a as => simp [valueMiss]
    | some v =>
      cases acoes with
      | nil => simp [valueMiss]
      | cons a as =>
        by_cases hv : (a :: as).contains v = true
        · simp [valueMiss, hv]
        · simp only [Bool.not_eq_true] at hv
          simp [valueMiss, hv]

/-- Witness for C10: a path carrying only a ticker segment is
unaffected by a start bound, and with no date set and the ticker set
`[AAA]` matching its ticker value it is not excluded. -/
theorem reader_filter_no_date_key_witness :
    (parse_partitions_from_path ["acao=AAA", "b3.parquet"]).data_pregao = none ∧
    (fileOk ["acao=AAA", "b3.parquet"] [] ["AAA"] (some "2026-01-01") none =
       fileOk ["acao=AAA", "b3.parquet"] [] ["AAA"] none none
     ∧ (fileOk ["acao=AAA", "b3.parquet"] [] ["AAA"] (some "2026-01-01") none = false ↔
         (([] : List String) ≠ [] ∨ ((["AAA"] : List String) ≠ [] ∧
           (∀ v, (parse_partitions_from_path ["acao=AAA", "b3.parquet"]).acao_negociada =
               some v → (["AAA"] : List String).contains v = false))))) :=
  ⟨by decide,
   reader_filter_no_date_key ["acao=AAA", "b3.parquet"] [] ["AAA"]
     (some "2026-01-01") none (by decide)⟩

/-! ### C6: partition grouping -/

theorem mem_uniqFirstAux {α : Type} [DecidableEq α] (l : List α) :
    ∀ (seen : List α) (a : α), a ∈ uniqFirstAux seen l ↔ a ∈ l ∧ a ∉ seen := by
  induction l with
  | nil =>
    intro seen a
    simp [uniqFirstAux]
  | cons x xs ih =>
    intro seen a
    by_cases hx : x ∈ seen
    · rw [uniqFirstAux, if_pos hx, ih]
      constructor
      · rintro ⟨h1, h2⟩
        exact ⟨List.mem_cons_of_mem _ h1, h2⟩
      · rintro ⟨h1, h2⟩
        rcases List.mem_cons.mp h1 with rfl | h1
        · exact absurd hx h2
        · exact ⟨h1, h2⟩
    · rw [uniqFirstAux, if_neg hx]
      constructor
      · intro hmem
        rcases List.mem_cons.mp hmem with rfl | hmem
        · exact ⟨List.mem_cons_self _ _, hx⟩
        · have h3 := (ih _ _).mp hmem
          exact ⟨List.mem_cons_of_mem _ h3.1,
            fun hs => h3.2 (List.mem_cons_of_mem _ hs)⟩
      · rintro ⟨h1, h2⟩
        rcases List.mem_cons.mp h1 with rfl | h1
        · exact List.mem_cons_self _ _
        · by_cases hax : a = x
          · subst hax
            exact List.mem_cons_self _ _
          · refine List.mem_cons_of_mem _ ((ih _ _).mpr ⟨h1, ?_⟩)
            intro hs
            rcases List.mem_cons.mp hs with h | h
            · exact hax h
            · exact h2 h

theorem nodup_uniqFirstAux {α : Type} [DecidableEq α] (l : List α) :
    ∀ seen : List α, (uniqFirstAux seen l).Nodup := by
  induction l with
  | nil =>
    intro seen
    simp [uniqFirstAux]
  | cons x xs ih =>
    intro seen
    by_cases hx : x ∈ seen
    · rw [uniqFirstAux, if_pos hx]
      exact ih seen
    · rw [uniqFirstAux, if_neg hx]
      refine List.nodup_cons.mpr ⟨?_, ih _⟩
      intro hmem
      exact ((mem_uniqFirstAux xs _ x).mp hmem).2 (List.mem_cons_self _ _)

theorem mem_uniqFirst {α : Type} [DecidableEq α] {l : List α} {a : α} :
    a ∈ uniqFirst l ↔ a ∈ l := by
  rw [uniqFirst, mem_uniqFirstAux]
  simp

theorem nodup_uniqFirst {α : Type} [DecidableEq α] (l : List α) : (uniqFirst l).Nodup :=
  nodup_uniqFirstAux l []

theorem mem_partitionKeys {rows : List (List Cell)} {d : Int} :
    d ∈ partitionKeys rows ↔ ∃ r ∈ rows, rowDay r = some d := by
  rw [partitionKeys, (List.perm_insertionSort _ _).mem_iff, mem_uniqFirst,
    List.mem_filterMap]

theorem nodup_partitionKeys (rows : List (List Cell)) : (partitionKeys rows).Nodup :=
  ((List.perm_insertionSort _ _).nodup_iff).mpr (nodup_uniqFirst _)

theorem sum_map_add_nat {α : Type} (K : List α) (f g : α → ℕ) :
    (K.map (fun d => f d + g d)).sum = (K.map f).sum + (K.map g).sum := by
  induction K with
  | nil => simp
  | cons k ks ih =>
    simp only [List.map_cons, List.sum_cons, ih]
    omega

theorem sum_ite_eq_indicator (o : Option Int) :
    ∀ K : List Int, K.Nodup →
      (K.map (fun d => if o = some d then 1 else 0)).sum
        = (if ∃ d ∈ K, o = some d then 1 else 0) := by
  intro K
  induction K with
  | nil => simp
  | cons k ks ih =>
    intro hnd
    rw [List.map_cons, List.sum_cons, ih (List.nodup_cons.mp hnd).2]
    by_cases hk : o = some k
    · have hno : ¬ ∃ d ∈ ks, o = some d := by
        rintro ⟨d, hd, hod⟩
        have hkd : k = d := by
          rw [hk] at hod
          exact Option.some.inj hod
        exact (List.nodup_cons.mp hnd).1 (hkd ▸ hd)
      rw [if_pos hk, if_neg hno, if_pos ⟨k, List.mem_cons_self _ _, hk⟩]
    · rw [if_neg hk, Nat.zero_add]
      by_cases h2 : ∃ d ∈ ks, o = some d
      · rw [if_pos h2, if_pos]
        obtain ⟨d, hd, hod⟩ := h2
        exact ⟨d, List.mem_cons_of_mem _ hd, hod⟩
      · rw [if_neg h2, if_neg]
        rintro ⟨d, hd, hod⟩
        rcases List.mem_cons.mp hd with rfl | hd
        · exact hk hod
        · exact h2 ⟨d, hd, hod⟩

theorem sum_countP_groups (K : List Int) (hK : K.Nodup) :
    ∀ rows : List (List Cell),
      (K.map (fun d => rows.countP (fun r => decide (rowDay r = some d)))).sum
        = rows.countP (fun r => decide (∃ d ∈ K, rowDay r = some d)) := by
  intro rows
  induction rows with
  | nil => simp
  | cons r rs ih =>
    simp only [List.countP_cons]
    rw [sum_map_add_nat, ih]
    congr 1
    have h := sum_ite_eq_indicator (rowDay r) K hK
    simp only [decide_eq_true_eq]
    exact h

/-- Claim C6.  The writer groups the normalized rows by the UTC
calendar day of `trade_date`, in ascending key order; each group is
non-empty and contains exactly the rows of its day, so rows spanning
two UTC days yield exactly two partition files; the group sizes sum
to the row count minus the rows with null (unparseable) timestamps,
which are excluded at this grouping stage. -/
theorem partition_grouping (rows : List (List Cell)) :
    List.Sorted (· ≤ ·) ((partitionGroups rows).map Prod.fst)
    ∧ (∀ p ∈ partitionGroups rows, p.2 ≠ [] ∧ ∀ r ∈ p.2, rowDay r = some p.1)
    ∧ ((partitionGroups rows).map (fun p => p.2.length)).sum
        + rows.countP (fun r => (rowDay r).isNone) = rows.length
    ∧ ((rows.filterMap rowDay).toFinset.card = 2 → (partitionGroups rows).length = 2) := by
  refine ⟨?_, ?_, ?_, ?_⟩
  · have hmap : (partitionGroups rows).map Prod.fst = partitionKeys rows := by
      rw [partitionGroups, List.map_map]
      exact List.map_id _
    rw [hmap, partitionKeys]
    exact List.sorted_insertionSort _ _
  · intro p hp
    rw [partitionGroups, List.mem_map] at hp
    obtain ⟨d, hd, rfl⟩ := hp
    constructor
    · obtain ⟨r, hr, hrd⟩ := mem_partitionKeys.mp hd
      exact List.ne_nil_of_mem (List.mem_filter.mpr ⟨hr, decide_eq_true hrd⟩)
    · intro r hr
      exact of_decide_eq_true (List.mem_filter.mp hr).2
  · have h1 : (partitionGroups rows).map (fun p => p.2.length)
        = (partitionKeys rows).map
            (fun d => rows.countP (fun r => decide (rowDay r = some d))) := by
      rw [partitionGroups, List.map_map]
      refine List.map_congr_left ?_
      intro d _
      exact (List.countP_eq_length_filter _ _).symm
    rw [h1, sum_countP_groups _ (nodup_partitionKeys rows) rows]
    have h2 : rows.countP (fun r => decide (∃ d ∈ partitionKeys rows, rowDay r = some d))
        = rows.countP (fun r => (rowDay r).isSome) := by
      refine List.countP_congr ?_
      intro r hr
      simp only [decide_eq_true_eq]
      cases ho : rowDay r with
      | none => simp
      | some v =>
        simp only [Option.isSome_some, iff_true]
        exact ⟨v, mem_partitionKeys.mpr ⟨r, hr, ho⟩, rfl⟩
    rw [h2]
    have h3 := List.length_eq_countP_add_countP (fun r => (rowDay r).isSome) rows
    rw [h3]
    congr 1
    refine List.countP_congr ?_
    intro r _
    cases rowDay r <;> simp
  · intro hcard
    have hlen : (partitionGroups rows).length = (partitionKeys rows).length := by
      rw [partitionGroups, List.length_map]
    have hperm : (partitionKeys rows).length
        = (uniqFirst (rows.filterMap rowDay)).length :=
      (List.perm_insertionSort _ _).length_eq
    have hfin : (uniqFirst (rows.filterMap rowDay)).toFinset
        = (rows.filterMap rowDay).toFinset := by
      ext a
      simp [mem_uniqFirst]
    have hcard2 : (uniqFirst (rows.filterMap rowDay)).length
        = (rows.filterMap rowDay).toFinset.card := by
      rw [← hfin, List.toFinset_card_of_nodup (nodup_uniqFirst _)]
    rw [hlen, hperm, hcard2, hcard]

/-- Witness for C6, evaluating the grouping on three rows spanning the
UTC days 1970-01-01 and 1970-01-02 plus one null-timestamp row: two
groups come out, in ascending order, of sizes 2 and 1. -/
theorem partition_grouping_witness :
    ((([[Cell.ts 100], [Cell.ts 86400050], [Cell.null], [Cell.ts 7]]
        : List (List Cell)).filterMap rowDay).toFinset.card = 2)
    ∧ (partitionGroups [[Cell.ts 100], [Cell.ts 86400050], [Cell.null], [Cell.ts 7]]).length = 2
    ∧ List.Sorted (· ≤ ·) ((partitionGroups
        [[Cell.ts 100], [Cell.ts 86400050], [Cell.null], [Cell.ts 7]]).map Prod.fst) :=
  ⟨by decide,
   (partition_grouping [[Cell.ts 100], [Cell.ts 86400050], [Cell.null], [Cell.ts 7]]).2.2.2
     (by decide),
   (partition_grouping [[Cell.ts 100], [Cell.ts 86400050], [Cell.null], [Cell.ts 7]]).1⟩

/-! ### Structural lemmas about the tidy pipeline -/

theorem tsCellOf_cases (tz c : Option Int) :
    tsCellOf tz c = (match c, tz with
      | none, _ => Cell.null
      | some v, none => Cell.ts v
      | some v, some o => Cell.ts (v - o * 60000)) := by
  cases c with
  | none => cases tz with | none => rfl | some o => rfl
  | some v => cases tz with | none => rfl | some o => rfl

theorem coerceTs_tsCellOf (tz c : Option Int) :
    coerceTs (tsCellOf tz c) = tsCellOf tz c := by
  cases c with
  | none => rfl
  | some v => cases tz with | none => rfl | some o => rfl

theorem canonRow_getD_zero (cols : List String) (r : List Cell) :
    (canonRow cols r).getD 0 Cell.null
      = coerceField "trade_date" (cellFor cols r "trade_date") := rfl

theorem cellFor_head_trade_date (rest : List String) (a : Cell) (cells : List Cell) :
    cellFor ("trade_date" :: rest) (a :: cells) "trade_date" = a := rfl

/-- Every row of the wide-branch mid table starts with the normalized
timestamp of a source index entry, followed by a ticker string. -/
theorem stackRows_row_shape (tz : Option Int) (index : List (Option Int))
    (data : List (List Cell)) (cols : List (String × String)) (r : List Cell)
    (hr : r ∈ (stackRows tz index data cols).rows) :
    ∃ c, c ∈ index ∧ ∃ tk rest, r = tsCellOf tz c :: Cell.str tk :: rest := by
  simp only [stackRows, List.mem_flatMap, List.mem_map] at hr
  obtain ⟨p, hp, tk, _, rfl⟩ := hr
  exact ⟨p.1, (List.of_mem_zip (by exact hp)).1, tk, _, rfl⟩

/-! ### C1: timezone asymmetry of normalization -/

/-- Claim C1.  For every non-empty source table, each output row's
`trade_date` is a source index entry normalized as follows: with an
explicit offset `o` (minutes east of UTC) on the index, clock value
`v` becomes the UTC instant `v - o * 60000` with no offset attached;
with a timezone-naive index the clock value is unchanged (assumed
UTC); null entries stay null.  For flat tables the whole `trade_date`
column equals the index so normalized, entry by entry. -/
theorem tz_normalization_asymmetry :
    ∀ (src : SourceTable) (tickers : List String), srcEmpty src = false →
      (∀ row ∈ (_to_tidy src tickers).rows, ∃ c, c ∈ srcIndex src ∧
          row.getD 0 Cell.null =
            (match c, srcTz src with
             | none, _ => Cell.null
             | some v, none => Cell.ts v
             | some v, some o => Cell.ts (v - o * 60000)))
      ∧ (∀ t : FlatTable, src = SourceTable.flat t →
          (_to_tidy src tickers).rows.map (fun r => r.getD 0 Cell.null)
            = ((t.index.zip t.data).map Prod.fst).map (fun c =>
                match c, t.tz with
                | none, _ => Cell.null
                | some v, none => Cell.ts v
                | some v, some o => Cell.ts (v - o * 60000))) := by
  intro src tickers hne
  have hif : _to_tidy src tickers
      = ⟨expected, (midTable src tickers).rows.map (canonRow (midTable src tickers).cols)⟩ := by
    rw [_to_tidy, if_neg (by simp [hne])]
  constructor
  · intro row hrow
    rw [hif] at hrow
    simp only [List.mem_map] at hrow
    obtain ⟨r, hr, rfl⟩ := hrow
    cases src with
    | wide w =>
      obtain ⟨c, hc, tk, rest, rfl⟩ := stackRows_row_shape w.tz w.index w.data _ r hr
      refine ⟨c, hc, ?_⟩
      rw [← tsCellOf_cases]
      have hcols : (midTable (SourceTable.wide w) tickers).cols
          = "trade_date" :: "ticker" :: uniqFirst ((if _detect_ticker_level w.cols tickers = 1
              then w.cols.map (fun p => (p.2, p.1)) else w.cols).map Prod.snd) := rfl
      rw [canonRow_getD_zero, hcols, cellFor_head_trade_date]
      show coerceTs (tsCellOf w.tz c) = tsCellOf w.tz c
      exact coerceTs_tsCellOf _ _
    | flat t =>
      simp only [midTable, List.mem_map] at hr
      obtain ⟨p, hp, rfl⟩ := hr
      refine ⟨p.1, (List.of_mem_zip (by exact hp)).1, ?_⟩
      rw [← tsCellOf_cases, canonRow_getD_zero]
      show coerceField "trade_date" (cellFor ("trade_date" :: "ticker" :: t.cols)
        (tsCellOf t.tz p.1 :: Cell.str (tickers.headD "UNKNOWN") :: p.2) "trade_date")
        = tsCellOf t.tz p.1
      rw [cellFor_head_trade_date]
      exact coerceTs_tsCellOf _ _
  · rintro t rfl
    rw [hif]
    simp only [midTable, List.map_map]
    refine List.map_congr_left ?_
    intro p _
    show (canonRow ("trade_date" :: "ticker" :: t.cols)
      (tsCellOf t.tz p.1 :: Cell.str (tickers.headD "UNKNOWN") :: p.2)).getD 0 Cell.null
      = (match p.1, t.tz with
         | none, _ => Cell.null
         | some v, none => Cell.ts v
         | some v, some o => Cell.ts (v - o * 60000))
    rw [← tsCellOf_cases, canonRow_getD_zero, cellFor_head_trade_date]
    exact coerceTs_tsCellOf _ _

/-- Witness for C1, the spec's own example: a flat table whose index
carries offset UTC-3 and clock 10:00 (36000000 ms) yields trade_date
13:00 UTC (46800000 ms), while the same clock with no offset stays
10:00. -/
theorem tz_normalization_asymmetry_witness :
    srcEmpty (SourceTable.flat ⟨some (-180), [some 36000000], ["Open"], [[Cell.num 1]]⟩) = false
    ∧ (_to_tidy (SourceTable.flat ⟨some (-180), [some 36000000], ["Open"], [[Cell.num 1]]⟩)
        ["VALE3.SA"]).rows.map (fun r => r.getD 0 Cell.null) = [Cell.ts 46800000]
    ∧ (_to_tidy (SourceTable.flat ⟨none, [some 36000000], ["Open"], [[Cell.num 1]]⟩)
        ["VALE3.SA"]).rows.map (fun r => r.getD 0 Cell.null) = [Cell.ts 36000000] := by
  refine ⟨by decide, ?_, by decide⟩
  have h := (tz_normalization_asymmetry
    (SourceTable.flat ⟨some (-180), [some 36000000], ["Open"], [[Cell.num 1]]⟩)
    ["VALE3.SA"] (by decide)).2 _ rfl
  rw [h]
  decide

/-! ### C2: schema stability -/

theorem cellFor_none {cols : List String} {r : List Cell} {e : String}
    (h : ∀ c ∈ cols, colCanon c ≠ e) : cellFor cols r e = Cell.null := by
  unfold cellFor
  rw [List.findIdx?_eq_none_iff.mpr fun c hc => decide_eq_false (h c hc)]

theorem coerceField_trade_date_kind (c : Cell) :
    cellIsTsLike (coerceField "trade_date" c) = true := by
  cases c with
  | null => rfl
  | num q => rfl
  | int n => rfl
  | str s => rfl
  | ts v => rfl

theorem coerceField_price_kind (e : String) (he : e = "open" ∨ e = "high" ∨ e = "low"
    ∨ e = "close" ∨ e = "adj_close") (c : Cell) :
    cellIsNumLike (coerceField e c) = true := by
  rcases he with rfl | rfl | rfl | rfl | rfl <;>
    cases c with
    | null => rfl
    | num q => rfl
    | int n => rfl
    | str s => rfl
    | ts v => rfl

theorem coerceField_volume_kind (c : Cell) :
    cellIsInt (coerceField "volume" c) = true := by
  cases c with
  | null => rfl
  | num q => rfl
  | int n => rfl
  | str s => rfl
  | ts v => rfl

theorem midTable_cols_head (src : SourceTable) (tickers : List String) :
    ∃ rest, (midTable src tickers).cols = "trade_date" :: "ticker" :: rest := by
  cases src with
  | wide w => exact ⟨_, rfl⟩
  | flat t => exact ⟨_, rfl⟩

/-- Claim C2, counterexample.  A flat single-ticker frame whose only
field is `Open` lacks the `volume` field, yet the output volume
column is `Cell.int 0`, not null: a missing `volume` does not appear
as an all-null column (it is coerced to all-zero by the non-null
volume rule). -/
theorem schema_missing_volume_counterexample :
    (∀ c ∈ (midTable (SourceTable.flat ⟨none, [some 0], ["Open"], [[Cell.num 2]]⟩)
        ["AAA"]).cols, colCanon c ≠ "volume")
    ∧ ¬ (∀ row ∈ (_to_tidy (SourceTable.flat ⟨none, [some 0], ["Open"], [[Cell.num 2]]⟩)
        ["AAA"]).rows, row.getD 7 Cell.null = Cell.null) :=
  ⟨by decide, by decide⟩

/-- Claim C2, amended.  For every non-empty source table of any shape,
the output of `_to_tidy` has exactly the 8 canonical fields in order,
with canonical cell types (naive-ms timestamp or null, string, float
or null for the five prices, non-null int64 volume); extra fields are
dropped and a missing expected field appears as an all-null column,
except `volume`, which appears as all-zero. -/
theorem schema_stability :
    ∀ (src : SourceTable) (tickers : List String), srcEmpty src = false →
      (_to_tidy src tickers).cols = expected
      ∧ (∀ row ∈ (_to_tidy src tickers).rows,
          row.length = 8
          ∧ cellIsTsLike (row.getD 0 Cell.null) = true
          ∧ cellIsStr (row.getD 1 Cell.null) = true
          ∧ cellIsNumLike (row.getD 2 Cell.null) = true
          ∧ cellIsNumLike (row.getD 3 Cell.null) = true
          ∧ cellIsNumLike (row.getD 4 Cell.null) = true
          ∧ cellIsNumLike (row.getD 5 Cell.null) = true
          ∧ cellIsNumLike (row.getD 6 Cell.null) = true
          ∧ cellIsInt (row.getD 7 Cell.null) = true)
      ∧ (∀ e ∈ expected,
          (∀ c ∈ (midTable src tickers).cols, colCanon c ≠ e) →
          ∀ row ∈ (_to_tidy src tickers).rows,
            row.getD (expected.findIdx (fun x => decide (x = e))) Cell.null
              = (if e = "volume" then Cell.int 0 else Cell.null)) := by
  intro src tickers hne
  have hif : _to_tidy src tickers
      = ⟨expected, (midTable src tickers).rows.map (canonRow (midTable src tickers).cols)⟩ := by
    rw [_to_tidy, if_neg (by simp [hne])]
  refine ⟨by rw [hif], ?_, ?_⟩
  · intro row hrow
    rw [hif] at hrow
    simp only [List.mem_map] at hrow
    obtain ⟨r, _, rfl⟩ := hrow
    refine ⟨rfl, coerceField_trade_date_kind _, rfl, ?_, ?_, ?_, ?_, ?_,
      coerceField_volume_kind _⟩
    · exact coerceField_price_kind _ (by tauto) _
    · exact coerceField_price_kind _ (by tauto) _
    · exact coerceField_price_kind _ (by tauto) _
    · exact coerceField_price_kind _ (by tauto) _
    · exact coerceField_price_kind _ (by tauto) _
  · intro e he hmiss row hrow
    rw [hif] at hrow
    simp only [List.mem_map] at hrow
    obtain ⟨r, _, rfl⟩ := hrow
    obtain ⟨rest, hcols⟩ := midTable_cols_head src tickers
    have htd : colCanon "trade_date" = "trade_date" := by decide
    have htk : colCanon "ticker" = "ticker" := by decide
    have hnull := @cellFor_none (midTable src tickers).cols r e hmiss
    simp only [expected, List.mem_cons, List.not_mem_nil, or_false] at he
    rcases he with rfl | rfl | rfl | rfl | rfl | rfl | rfl | rfl
    · exact absurd (hmiss "trade_date" (by rw [hcols]; exact List.mem_cons_self _ _)) (by simp [htd])
    · exact absurd (hmiss "ticker" (by rw [hcols]; simp)) (by simp [htk])
    · show coerceField "open" (cellFor _ r "open") = _
      rw [hnull]
      rfl
    · show coerceField "high" (cellFor _ r "high") = _
      rw [hnull]
      rfl
    · show coerceField "low" (cellFor _ r "low") = _
      rw [hnull]
      rfl
    · show coerceField "close" (cellFor _ r "close") = _
      rw [hnull]
      rfl
    · show coerceField "adj_close" (cellFor _ r "adj_close") = _
      rw [hnull]
      rfl
    · show coerceField "volume" (cellFor _ r "volume") = _
      rw [hnull]
      rfl

/-- Witness for C2: a wide two-ticker frame with fields `Open` and
`Adj Close` (and no volume) satisfies the schema conjuncts; its first
output row types check. -/
theorem schema_stability_witness :
    srcEmpty (SourceTable.wide ⟨none, [some 0],
      [("AAA", "Open"), ("AAA", "Adj Close"), ("BBB", "Open"), ("BBB", "Adj Close")],
      [[Cell.num 1, Cell.num 2, Cell.num 3, Cell.num 4]]⟩) = false
    ∧ (_to_tidy (SourceTable.wide ⟨none, [some 0],
        [("AAA", "Open"), ("AAA", "Adj Close"), ("BBB", "Open"), ("BBB", "Adj Close")],
        [[Cell.num 1, Cell.num 2, Cell.num 3, Cell.num 4]]⟩) ["AAA", "BBB"]).cols = expected :=
  ⟨by decide,
   (schema_stability (SourceTable.wide ⟨none, [some 0],
      [("AAA", "Open"), ("AAA", "Adj Close"), ("BBB", "Open"), ("BBB", "Adj Close")],
      [[Cell.num 1, Cell.num 2, Cell.num 3, Cell.num 4]]⟩) ["AAA", "BBB"] (by decide)).1⟩

/-! ### C5: volume invariant -/

theorem getD_default_or_mem {α : Type} (l : List α) (i : Nat) (d : α) :
    l.getD i d = d ∨ l.getD i d ∈ l := by
  rw [List.getD_eq_getElem?_getD]
  cases h : l[i]? with
  | none => exact Or.inl rfl
  | some x =>
    right
    simp only [Option.getD_some]
    exact List.getElem?_mem h

theorem toNumeric_tsCellOf (tz c : Option Int) : toNumeric (tsCellOf tz c) = none := by
  cases c with
  | none => rfl
  | some v => cases tz with | none => rfl | some o => rfl

/-- Every cell of a mid-table row is either non-numeric (timestamp,
ticker string, or null filler) or literally one of the source table's
data cells. -/
theorem midTable_cell_source (src : SourceTable) (tickers : List String)
    (r : List Cell) (hr : r ∈ (midTable src tickers).rows)
    (c : Cell) (hc : c ∈ r) :
    toNumeric c = none ∨ c ∈ srcCells src := by
  cases src with
  | wide w =>
    simp only [midTable, stackRows, List.mem_flatMap, List.mem_map] at hr
    obtain ⟨p, hp, tk, _, rfl⟩ := hr
    rcases List.mem_cons.mp hc with rfl | hc
    · exact Or.inl (toNumeric_tsCellOf _ _)
    rcases List.mem_cons.mp hc with rfl | hc
    · exact Or.inl rfl
    simp only [List.mem_map] at hc
    obtain ⟨f, _, rfl⟩ := hc
    unfold lookupCell
    cases hfind : (((if _detect_ticker_level w.cols tickers = 1
        then w.cols.map swapPair else w.cols)).zip p.2).find?
        (fun q => decide (q.1 = (tk, f))) with
    | none => exact Or.inl rfl
    | some q =>
      right
      have hq := List.mem_of_find?_eq_some hfind
      have h2 := (List.of_mem_zip hq).2
      have h3 := (List.of_mem_zip hp).2
      exact List.mem_flatten_of_mem h3 h2
  | flat t =>
    simp only [midTable, List.mem_map] at hr
    obtain ⟨p, hp, rfl⟩ := hr
    rcases List.mem_cons.mp hc with rfl | hc
    · exact Or.inl (toNumeric_tsCellOf _ _)
    rcases List.mem_cons.mp hc with rfl | hc
    · exact Or.inl rfl
    · exact Or.inr (List.mem_flatten_of_mem (List.of_mem_zip hp).2 hc)

theorem truncRat_nonneg {q : ℚ} (h : 0 ≤ q) : 0 ≤ truncRat q := by
  rw [truncRat, if_pos h]
  exact Int.le_floor.mpr (by exact_mod_cast h)

/-- Claim C5, counterexample.  The claim says every output volume is
non-negative; a source volume of -5 passes through `to_numeric`,
`fillna(0)` and `astype("int64")` unchanged, producing the negative
output volume -5. -/
theorem volume_negative_counterexample :
    (_to_tidy (SourceTable.flat ⟨none, [some 0], ["Volume"], [[Cell.num (-5)]]⟩)
        ["AAA"]).rows.map (fun r => r.getD 7 Cell.null) = [Cell.int (-5)]
    ∧ (-5 : Int) < 0 :=
  ⟨by decide, by decide⟩

/-- Claim C5, amended.  For every non-empty source table, every
output row's volume is an int64 cell, never null; a missing volume
field yields all-zero volumes; a null or unparseable volume cell
yields 0; and all output volumes are non-negative provided every
numeric source cell is non-negative (the code applies no clamp, so a
negative source volume passes through). -/
theorem volume_int_invariant :
    ∀ (src : SourceTable) (tickers : List String), srcEmpty src = false →
      (∀ row ∈ (_to_tidy src tickers).rows, cellIsInt (row.getD 7 Cell.null) = true)
      ∧ ((∀ c ∈ (midTable src tickers).cols, colCanon c ≠ "volume") →
          ∀ row ∈ (_to_tidy src tickers).rows, row.getD 7 Cell.null = Cell.int 0)
      ∧ (∀ r ∈ (midTable src tickers).rows,
          toNumeric (cellFor (midTable src tickers).cols r "volume") = none →
          (canonRow (midTable src tickers).cols r).getD 7 Cell.null = Cell.int 0)
      ∧ ((∀ c ∈ srcCells src, ∀ q : ℚ, toNumeric c = some q → 0 ≤ q) →
          ∀ row ∈ (_to_tidy src tickers).rows,
            ∀ n : Int, row.getD 7 Cell.null = Cell.int n → 0 ≤ n) := by
  intro src tickers hne
  have hif : _to_tidy src tickers
      = ⟨expected, (midTable src tickers).rows.map (canonRow (midTable src tickers).cols)⟩ := by
    rw [_to_tidy, if_neg (by simp [hne])]
  refine ⟨?_, ?_, ?_, ?_⟩
  · intro row hrow
    rw [hif] at hrow
    simp only [List.mem_map] at hrow
    obtain ⟨r, _, rfl⟩ := hrow
    exact coerceField_volume_kind _
  · intro hmiss row hrow
    rw [hif] at hrow
    simp only [List.mem_map] at hrow
    obtain ⟨r, _, rfl⟩ := hrow
    show coerceField "volume" (cellFor _ r "volume") = _
    rw [cellFor_none hmiss]
    rfl
  · intro r _ hnum
    show coerceField "volume" (cellFor _ r "volume") = _
    show Cell.int (match toNumeric (cellFor _ r "volume") with
      | some q => truncRat q | none => 0) = Cell.int 0
    rw [hnum]
  · intro hsrc row hrow n hn
    rw [hif] at hrow
    simp only [List.mem_map] at hrow
    obtain ⟨r, hr, rfl⟩ := hrow
    have hget : (canonRow (midTable src tickers).cols r).getD 7 Cell.null
        = Cell.int (match toNumeric (cellFor (midTable src tickers).cols r "volume") with
            | some q => truncRat q | none => 0) := rfl
    rw [hget] at hn
    have hn2 : n = (match toNumeric (cellFor (midTable src tickers).cols r "volume") with
        | some q => truncRat q | none => 0) := (Cell.int.inj hn).symm
    have hcell : cellFor (midTable src tickers).cols r "volume" = Cell.null
        ∨ cellFor (midTable src tickers).cols r "volume" ∈ r := by
      unfold cellFor
      cases hfind : (midTable src tickers).cols.findIdx?
          (fun c => decide (colCanon c = "volume")) with
      | none => exact Or.inl rfl
      | some i => exact getD_default_or_mem r i Cell.null
    rcases hcell with hcell | hcell
    · have h0 : toNumeric (cellFor (midTable src tickers).cols r "volume") = none := by
        rw [hcell]
        rfl
      rw [h0] at hn2
      have hn0 : n = 0 := hn2.trans rfl
      omega
    · rcases midTable_cell_source src tickers r hr _ hcell with hnone | hsrcmem
      · rw [hnone] at hn2
        have hn0 : n = 0 := hn2.trans rfl
        omega
      · cases hq : toNumeric (cellFor (midTable src tickers).cols r "volume") with
        | none =>
          rw [hq] at hn2
          have hn0 : n = 0 := hn2.trans rfl
          omega
        | some q =>
          rw [hq] at hn2
          have hnq : n = truncRat q := hn2.trans rfl
          have := truncRat_nonneg (hsrc _ hsrcmem q hq)
          omega

/-- Witness for C5: a flat frame with a null and a numeric volume
yields int volumes 0 and 100, all non-negative. -/
theorem volume_int_invariant_witness :
    (_to_tidy (SourceTable.flat ⟨none, [some 0, some 1], ["Volume"],
        [[Cell.null], [Cell.num 100]]⟩) ["AAA"]).rows.map (fun r => r.getD 7 Cell.null)
      = [Cell.int 0, Cell.int 100]
    ∧ (∀ row ∈ (_to_tidy (SourceTable.flat ⟨none, [some 0, some 1], ["Volume"],
        [[Cell.null], [Cell.num 100]]⟩) ["AAA"]).rows,
        ∀ n : Int, row.getD 7 Cell.null = Cell.int n → 0 ≤ n) :=
  ⟨by decide,
   (volume_int_invariant (SourceTable.flat ⟨none, [some 0, some 1], ["Volume"],
      [[Cell.null], [Cell.num 100]]⟩) ["AAA"] (by decide)).2.2.2
     (by
       intro c hc q hq
       have hc2 : c = Cell.null ∨ c = Cell.num 100 := by
         simpa [srcCells] using hc
       rcases hc2 with rfl | rfl
       · simp [toNumeric] at hq
       · have h100 : (100 : ℚ) = q := Option.some.inj hq
         rw [← h100]
         norm_num)⟩

/-! ### C4: level-swap invariance -/

theorem map_map_swapPair (l : List (String × String)) :
    (l.map swapPair).map swapPair = l := by
  rw [List.map_map]
  exact (List.map_congr_left fun p _ => rfl).trans (List.map_id l)

theorem map_fst_swapPair (l : List (String × String)) :
    (l.map swapPair).map Prod.fst = l.map Prod.snd := by
  rw [List.map_map]
  exact List.map_congr_left fun p _ => rfl

theorem map_snd_swapPair (l : List (String × String)) :
    (l.map swapPair).map Prod.snd = l.map Prod.fst := by
  rw [List.map_map]
  exact List.map_congr_left fun p _ => rfl

/-- Claim C4, counterexample.  A single-ticker wide frame and its
level-swapped twin normalize differently: the detection threshold
`1 // 2 = 0` makes level 0 win in both orientations, so in the
swapped frame the field name `Open` is treated as the ticker. -/
theorem level_swap_counterexample :
    _to_tidy (SourceTable.wide ⟨none, [some 0], [("Open", "AAA")], [[Cell.num 1]]⟩) ["AAA"]
      ≠ _to_tidy (SourceTable.wide ⟨none, [some 0], [("AAA", "Open")], [[Cell.num 1]]⟩)
          ["AAA"] := by
  decide

/-- Claim C4, amended.  Swapping the two column-hierarchy levels of a
non-empty multi-ticker source table leaves the normalized output
unchanged provided exactly one of the two levels passes the
half-threshold overlap test with the requested tickers (the test the
code uses for detection).  When both levels pass — e.g. any single
requested ticker, where the threshold is `1 // 2 = 0` — or neither
does, detection picks level 0 in both orientations and the outputs
can differ. -/
theorem level_swap_invariance_conditional :
    ∀ (w : WideTable) (tickers : List String),
      srcEmpty (SourceTable.wide w) = false →
      (levelHit (w.cols.map Prod.fst) tickers ↔ ¬ levelHit (w.cols.map Prod.snd) tickers) →
      _to_tidy (SourceTable.wide ⟨w.tz, w.index, w.cols.map swapPair, w.data⟩) tickers
        = _to_tidy (SourceTable.wide w) tickers := by
  intro w tickers hne hxor
  have hcolsne : (w.cols.map swapPair).isEmpty = w.cols.isEmpty := by
    cases w.cols with
    | nil => rfl
    | cons a l => rfl
  have hneS : srcEmpty (SourceTable.wide ⟨w.tz, w.index, w.cols.map swapPair, w.data⟩)
      = false := by
    simpa [srcEmpty, hcolsne] using hne
  rw [_to_tidy, _to_tidy, if_neg (by simp [hneS]), if_neg (by simp [hne])]
  suffices h : midTable (SourceTable.wide ⟨w.tz, w.index, w.cols.map swapPair, w.data⟩) tickers
      = midTable (SourceTable.wide w) tickers by
    rw [h]
  by_cases h0 : levelHit (w.cols.map Prod.fst) tickers
  · have h1 : ¬ levelHit (w.cols.map Prod.snd) tickers := hxor.mp h0
    have hdw : _detect_ticker_level w.cols tickers = 0 := by
      unfold _detect_ticker_level
      rw [if_pos h0]
    have hds : _detect_ticker_level (w.cols.map swapPair) tickers = 1 := by
      unfold _detect_ticker_level
      rw [map_fst_swapPair, map_snd_swapPair, if_neg h1, if_pos h0]
    show stackRows w.tz w.index w.data
        (if _detect_ticker_level (w.cols.map swapPair) tickers = 1
         then (w.cols.map swapPair).map swapPair else w.cols.map swapPair)
      = stackRows w.tz w.index w.data
        (if _detect_ticker_level w.cols tickers = 1 then w.cols.map swapPair else w.cols)
    rw [hdw, hds, if_pos rfl, if_neg (by decide), map_map_swapPair]
  · have h1 : levelHit (w.cols.map Prod.snd) tickers := not_not.mp (mt hxor.mpr h0)
    have hdw : _detect_ticker_level w.cols tickers = 1 := by
      unfold _detect_ticker_level
      rw [if_neg h0, if_pos h1]
    have hds : _detect_ticker_level (w.cols.map swapPair) tickers = 0 := by
      unfold _detect_ticker_level
      rw [map_fst_swapPair, if_pos h1]
    show stackRows w.tz w.index w.data
        (if _detect_ticker_level (w.cols.map swapPair) tickers = 1
         then (w.cols.map swapPair).map swapPair else w.cols.map swapPair)
      = stackRows w.tz w.index w.data
        (if _detect_ticker_level w.cols tickers = 1 then w.cols.map swapPair else w.cols)
    rw [hdw, hds, if_pos rfl, if_neg (by decide)]

/-- Witness for C4: a two-ticker frame whose level 0 holds both
requested tickers and whose level 1 holds field names passes the
exactly-one-level condition, and swapping its levels leaves the
normalized output unchanged. -/
theorem level_swap_invariance_conditional_witness :
    srcEmpty (SourceTable.wide ⟨none, [some 0],
      [("AAA", "Open"), ("BBB", "Open")], [[Cell.num 1, Cell.num 2]]⟩) = false
    ∧ (levelHit ((([("AAA", "Open"), ("BBB", "Open")] : List (String × String))).map Prod.fst)
        ["AAA", "BBB"] ↔
       ¬ levelHit ((([("AAA", "Open"), ("BBB", "Open")] : List (String × String))).map Prod.snd)
        ["AAA", "BBB"])
    ∧ _to_tidy (SourceTable.wide ⟨none, [some 0],
        ([("AAA", "Open"), ("BBB", "Open")] : List (String × String)).map swapPair,
        [[Cell.num 1, Cell.num 2]]⟩) ["AAA", "BBB"]
      = _to_tidy (SourceTable.wide ⟨none, [some 0],
          [("AAA", "Open"), ("BBB", "Open")], [[Cell.num 1, Cell.num 2]]⟩) ["AAA", "BBB"] :=
  ⟨by decide, by decide,
   level_swap_invariance_conditional
     ⟨none, [some 0], [("AAA", "Open"), ("BBB", "Open")], [[Cell.num 1, Cell.num 2]]⟩
     ["AAA", "BBB"] (by decide) (by decide)⟩

end B3Ingest
